import Mathlib

/-!
Shallow embedding of the spaced-repetition core of a flashcard
application: the SM-2 scheduler `calculateNextReview`
(src/services/spacedRepetition.ts), prioritized due-card selection
`getDueCardsWithPriority`, streak accounting `updateStreak`, and the
full progress reset `resetAllProgress` (all in the database service
module).

Modelling conventions:
* JavaScript numbers that hold ease factors and scores are modelled as
  exact rationals (`ℚ`); day counts and repetition counts are integers
  (the database constrains `interval ≥ 0` and `repetitions ≥ 0`, so
  `ℤ` resp. `ℕ` are used).
* ISO-8601 timestamp strings are compared lexicographically in the
  source (SQL `<=` and `localeCompare`), which coincides with
  chronological order for that fixed format, so timestamps are
  modelled as integers `ℤ` with the usual order.  `addDays(d, n)` is
  `d + n`.
* The source samples the wall clock (`new Date()`) inside the
  functions; each such sample is made an explicit `now`/`today`
  parameter of the embedded function.
* `Math.round` on the nonnegative arguments occurring here is
  "round half toward +∞", i.e. `⌊x + 1/2⌋`.
-/

/-- JavaScript `Math.round`: round half toward positive infinity. -/
def jsRound (q : ℚ) : ℤ := ⌊q + 1/2⌋

/-- `CardSchedule` (src/types): per-question spaced-repetition state.
`nextReviewDate` is an ISO timestamp, modelled as an integer. -/
structure CardSchedule where
  questionId : String
  nextReviewDate : ℤ
  easeFactor : ℚ
  interval : ℤ
  repetitions : ℕ
deriving DecidableEq

/-- `calculateNextReview` (src/services/spacedRepetition.ts).  The
source computes `nextReviewDate = addDays(new Date(), interval)`; the
internal wall-clock sample `new Date()` is the explicit parameter
`now`.  The triple holds `(easeFactor, interval, repetitions)` after
the score branch, mirroring the source's three mutable locals. -/
def calculateNextReview (now : ℤ) (score : ℚ) (s : CardSchedule) : CardSchedule :=
  let efir : ℚ × ℤ × ℕ :=
    if score < 3 then
      (s.easeFactor, 1, 0)
    else
      let repetitions := s.repetitions + 1
      let interval : ℤ :=
        if repetitions = 1 then 1
        else if repetitions = 2 then 3
        else jsRound ((s.interval : ℚ) * s.easeFactor)
      let easeFactor : ℚ :=
        max (13/10) (s.easeFactor + (1/10 - (5 - score) * (8/100 + (5 - score) * (2/100))))
      (easeFactor, interval, repetitions)
  let interval : ℤ := min efir.2.1 365
  { questionId := s.questionId
    nextReviewDate := now + interval
    easeFactor := efir.1
    interval := interval
    repetitions := efir.2.2 }

/-- `createInitialSchedule` (src/services/spacedRepetition.ts): the
default schedule for a new card, due at the creation instant. -/
def createInitialSchedule (now : ℤ) (questionId : String) : CardSchedule :=
  { questionId := questionId
    nextReviewDate := now
    easeFactor := 5/2
    interval := 0
    repetitions := 0 }

/-- The CardSchedule invariants of the data model: `easeFactor ≥ 1.3`
and `0 ≤ interval ≤ 365`. -/
def ScheduleInv (s : CardSchedule) : Prop :=
  13/10 ≤ s.easeFactor ∧ 0 ≤ s.interval ∧ s.interval ≤ 365

instance (s : CardSchedule) : Decidable (ScheduleInv s) := by
  unfold ScheduleInv; infer_instance

/-- Modelled from the spec: `computeNextSchedule` with the input
validation the spec's error-handling section demands (reject a score
outside the integers 1..5 with a validation error); the source's
`calculateNextReview` contains no such check. -/
def computeNextScheduleChecked (now : ℤ) (score : ℚ) (s : CardSchedule) :
    Except String CardSchedule :=
  if score.den = 1 ∧ 1 ≤ score ∧ score ≤ 5 then
    Except.ok (calculateNextReview now score s)
  else
    Except.error ("score must be an integer between 1 and 5")

/-- `UserStats` (src/types): streak accounting state.
`lastPracticeDate` is the calendar date (the `split('T')[0]` part of
the stored ISO timestamp), modelled as a day number. -/
structure UserStats where
  totalReviews : ℕ
  currentStreak : ℕ
  longestStreak : ℕ
  lastPracticeDate : Option ℤ
deriving DecidableEq

/-- `updateStreak` (database service).  The source reads the current
stats row, compares calendar-date strings (`today`, `yesterday =
today - 1 day`), and writes the updated row; modelled as a pure state
transformer with the internally sampled current date as the explicit
parameter `today`. -/
def updateStreak (stats : UserStats) (today : ℤ) : UserStats :=
  if stats.lastPracticeDate = some today then
    stats
  else
    let newStreak : ℕ :=
      if stats.lastPracticeDate = some (today - 1) then stats.currentStreak + 1 else 1
    { stats with
      currentStreak := newStreak
      longestStreak := max newStreak stats.longestStreak
      lastPracticeDate := some today }

/-- `resetAllProgress` (database service), restricted to the records
the claims concern: `UPDATE user_stats SET total_reviews = 0,
current_streak = 0, last_practice_date = NULL` (the `SET` list does
not mention `longest_streak`) and `UPDATE card_schedules SET
next_review_date = now, ease_factor = 2.5, interval = 0,
repetitions = 0`. -/
def resetAllProgress (schedules : List CardSchedule) (stats : UserStats) (now : ℤ) :
    List CardSchedule × UserStats :=
  (schedules.map (fun s =>
      { questionId := s.questionId
        nextReviewDate := now
        easeFactor := 5/2
        interval := 0
        repetitions := 0 }),
    { stats with totalReviews := 0, currentStreak := 0, lastPracticeDate := none })

/-- `UserPreferences` (src/types), the two fields the selector can
see; only `preferredCategories` is used by it. -/
structure UserPreferences where
  preferredCategories : List String
  preferredDifficulties : List (String × String)
deriving DecidableEq

/-- A row of the selector's SQL join: a card schedule together with
its question's category (`SELECT cs.*, q.category FROM card_schedules
cs JOIN questions q ON cs.question_id = q.id`; the foreign key from
`card_schedules.question_id` to `questions.id` is enforced and
`questions.category` is NOT NULL, so every schedule row carries
exactly one category string). -/
structure DueCard where
  schedule : CardSchedule
  category : String
deriving DecidableEq

/-- `a.localeCompare(b)` on ISO timestamps: sign of the chronological
comparison. -/
def dateCompare (x y : ℤ) : ℤ :=
  if x < y then -1 else if x = y then 0 else 1

/-- The selector's `priorityMap`:
`new Map(preferences.preferredCategories.map((cat, idx) => [cat, idx]))`
followed by `.get(category) ?? Infinity`.  Later duplicate keys
overwrite earlier ones; a missing key yields `Infinity`, modelled as
`⊤` in `WithTop ℕ`. -/
def priorityMap (prefs : List String) : String → WithTop ℕ :=
  prefs.enum.foldl
    (fun m p => fun c => if c = p.2 then WithTop.some p.1 else m c)
    (fun _ => (⊤ : WithTop ℕ))

/-- The comparator passed to `dueCards.sort` in
`getDueCardsWithPriority`: preferred categories first, then by
priority index, falling back to `nextReviewDate` order.  The numeric
return `aPriority - bPriority` of the source only matters through its
sign, which is `-1`/`1` according to `aPriority < bPriority`. -/
def jsCompare (prefs : List String) (a b : DueCard) : ℤ :=
  let aPreferred := a.category ∈ prefs
  let bPreferred := b.category ∈ prefs
  if aPreferred ∧ ¬ bPreferred then -1
  else if ¬ aPreferred ∧ bPreferred then 1
  else if aPreferred ∧ bPreferred ∧ priorityMap prefs a.category ≠ priorityMap prefs b.category then
    (if priorityMap prefs a.category < priorityMap prefs b.category then -1 else 1)
  else
    dateCompare a.schedule.nextReviewDate b.schedule.nextReviewDate

/-- The "a sorts no later than b" relation induced by the comparator:
`jsCompare a b ≤ 0`. -/
def dueLE (prefs : List String) (a b : DueCard) : Prop :=
  jsCompare prefs a b ≤ 0

instance (prefs : List String) : DecidableRel (dueLE prefs) := fun _ _ => by
  unfold dueLE; infer_instance

/-- The SQL `ORDER BY cs.next_review_date ASC` pre-ordering. -/
def sqlDateLE (a b : DueCard) : Prop :=
  a.schedule.nextReviewDate ≤ b.schedule.nextReviewDate

instance : DecidableRel sqlDateLE := fun _ _ => by
  unfold sqlDateLE; infer_instance

/-- The joined rows of `getDueCardsWithPriority` after the SQL filter
`WHERE cs.next_review_date <= ?` and `ORDER BY next_review_date ASC`,
then sorted in place by the JavaScript comparator.
`Array.prototype.sort` with a consistent comparator is a stable sort
(ES2019), modelled by `List.insertionSort`, which is stable. -/
def dueCardsSorted (rows : List DueCard) (prefs : UserPreferences) (now : ℤ) : List DueCard :=
  List.insertionSort (dueLE prefs.preferredCategories)
    (List.insertionSort sqlDateLE
      (rows.filter (fun r => r.schedule.nextReviewDate ≤ now)))

/-- `getDueCardsWithPriority` (database service): the sorted due rows
projected back to their schedules (`dueCards.map(item =>
item.schedule)`).  The wall-clock sample `new Date()` is the explicit
parameter `now`; the database content reaches the function as the
joined row list `rows`. -/
def getDueCardsWithPriority (rows : List DueCard) (prefs : UserPreferences) (now : ℤ) :
    List CardSchedule :=
  (dueCardsSorted rows prefs now).map DueCard.schedule

/-! ### Scheduler helper lemmas -/

/-- The lapse branch of `calculateNextReview` (`score < 3`). -/
theorem cnr_lapse_eq (now : ℤ) (score : ℚ) (s : CardSchedule) (h : score < 3) :
    calculateNextReview now score s =
      { questionId := s.questionId, nextReviewDate := now + 1,
        easeFactor := s.easeFactor, interval := 1, repetitions := 0 } := by
  unfold calculateNextReview
  rw [if_pos h]
  norm_num

/-- The success branch of `calculateNextReview` (`score ≥ 3`). -/
theorem cnr_success_eq (now : ℤ) (score : ℚ) (s : CardSchedule) (h : 3 ≤ score) :
    calculateNextReview now score s =
      { questionId := s.questionId
        nextReviewDate := now +
          min (if s.repetitions + 1 = 1 then 1
               else if s.repetitions + 1 = 2 then 3
               else jsRound ((s.interval : ℚ) * s.easeFactor)) 365
        easeFactor :=
          max (13/10) (s.easeFactor + (1/10 - (5 - score) * (8/100 + (5 - score) * (2/100))))
        interval :=
          min (if s.repetitions + 1 = 1 then 1
               else if s.repetitions + 1 = 2 then 3
               else jsRound ((s.interval : ℚ) * s.easeFactor)) 365
        repetitions := s.repetitions + 1 } := by
  unfold calculateNextReview
  rw [if_neg (not_lt.mpr h)]

/-- One application of `calculateNextReview` preserves the
CardSchedule invariants. -/
theorem scheduleInv_step (now : ℤ) (score : ℚ) (s : CardSchedule) (h : ScheduleInv s) :
    ScheduleInv (calculateNextReview now score s) := by
  obtain ⟨he, hi0, _⟩ := h
  by_cases hsc : score < 3
  · rw [cnr_lapse_eq now score s hsc]
    exact ⟨he, by norm_num, by norm_num⟩
  · rw [cnr_success_eq now score s (not_lt.mp hsc)]
    refine ⟨le_max_left _ _, ?_, min_le_right _ _⟩
    apply le_min _ (by norm_num)
    split_ifs with h1 h2
    · norm_num
    · norm_num
    · have hq : 0 ≤ (s.interval : ℚ) * s.easeFactor :=
        mul_nonneg (by exact_mod_cast hi0) (le_trans (by norm_num) he)
      unfold jsRound
      apply Int.le_floor.mpr
      push_cast
      linarith

/-- C1: for every schedule satisfying the invariants (easeFactor ≥ 1.3
and 0 ≤ interval ≤ 365), folding `calculateNextReview` over any
sequence of reviews with integer scores in 1..5 (each paired with the
clock value sampled at that review) again yields a schedule satisfying
the invariants; in particular they hold after any number of
applications. -/
theorem calculateNextReview_preserves_invariants (steps : List (ℤ × ℤ)) (s : CardSchedule)
    (hs : ScheduleInv s) (hsteps : ∀ p ∈ steps, 1 ≤ p.2 ∧ p.2 ≤ 5) :
    ScheduleInv (steps.foldl (fun acc p => calculateNextReview p.1 (p.2 : ℚ) acc) s) := by
  induction steps generalizing s with
  | nil => exact hs
  | cons p ps ih =>
      exact ih _ (scheduleInv_step _ _ _ hs) (fun q hq => hsteps q (List.mem_cons_of_mem _ hq))

/-- Witness for C1 at a concrete three-review run from the default
schedule. -/
theorem calculateNextReview_preserves_invariants_witness :
    ScheduleInv (([((0 : ℤ), (5 : ℤ)), (1, 2), (2, 3)]).foldl
      (fun acc p => calculateNextReview p.1 (p.2 : ℚ) acc) (createInitialSchedule 0 ("q"))) :=
  calculateNextReview_preserves_invariants _ _
    (by norm_num [ScheduleInv, createInitialSchedule]) (by decide)

/-- C2: a score < 3 (a lapse) always resets repetitions to 0 and the
interval to 1 and leaves the ease factor exactly unchanged, regardless
of the prior state. -/
theorem lapse_resets_schedule (now : ℤ) (score : ℚ) (s : CardSchedule) (h : score < 3) :
    calculateNextReview now score s =
      { questionId := s.questionId, nextReviewDate := now + 1,
        easeFactor := s.easeFactor, interval := 1, repetitions := 0 } :=
  cnr_lapse_eq now score s h

/-- Witness for C2: Scenario C, schedule {easeFactor 2.5, interval 10,
repetitions 3} with score 2 gives {repetitions 0, interval 1,
easeFactor 2.5}. -/
theorem lapse_resets_schedule_witness :
    calculateNextReview 0 2 ⟨"q", 0, 5/2, 10, 3⟩ = ⟨"q", 1, 5/2, 1, 0⟩ := by
  have h := lapse_resets_schedule 0 2 ⟨"q", 0, 5/2, 10, 3⟩ (by norm_num)
  exact h.trans (by simp)

/-- C3: a score ≥ 3 (score exactly 3 included, which therefore never
resets repetitions to 0) increments repetitions and sets the interval
by the new repetition count: 1 when it becomes 1, 3 when it becomes 2,
and round(previousInterval × easeFactor) when it becomes ≥ 3, the
result then being capped at 365. -/
theorem success_updates_repetitions_and_interval (now : ℤ) (score : ℚ) (s : CardSchedule)
    (h : 3 ≤ score) :
    (calculateNextReview now score s).repetitions = s.repetitions + 1 ∧
    (calculateNextReview now score s).repetitions ≠ 0 ∧
    (s.repetitions = 0 → (calculateNextReview now score s).interval = 1) ∧
    (s.repetitions = 1 → (calculateNextReview now score s).interval = 3) ∧
    (2 ≤ s.repetitions →
      (calculateNextReview now score s).interval =
        min (jsRound ((s.interval : ℚ) * s.easeFactor)) 365) := by
  rw [cnr_success_eq now score s h]
  refine ⟨rfl, by simp, ?_, ?_, ?_⟩
  · intro h0
    show min (if s.repetitions + 1 = 1 then 1
         else if s.repetitions + 1 = 2 then 3
         else jsRound ((s.interval : ℚ) * s.easeFactor)) 365 = 1
    rw [h0]
    norm_num
  · intro h1
    show min (if s.repetitions + 1 = 1 then 1
         else if s.repetitions + 1 = 2 then 3
         else jsRound ((s.interval : ℚ) * s.easeFactor)) 365 = 3
    rw [h1]
    norm_num
  · intro h2
    show min (if s.repetitions + 1 = 1 then 1
         else if s.repetitions + 1 = 2 then 3
         else jsRound ((s.interval : ℚ) * s.easeFactor)) 365 =
      min (jsRound ((s.interval : ℚ) * s.easeFactor)) 365
    have e1 : s.repetitions + 1 ≠ 1 := by omega
    have e2 : s.repetitions + 1 ≠ 2 := by omega
    rw [if_neg e1, if_neg e2]

/-- Witness for C3 at score 3 on a schedule with repetitions 3 and
interval 10: repetitions becomes 4 and the interval becomes
round(10 × 2.5) = 25. -/
theorem success_updates_repetitions_and_interval_witness :
    (calculateNextReview 0 3 ⟨"q", 0, 5/2, 10, 3⟩).repetitions = 4 ∧
    (calculateNextReview 0 3 ⟨"q", 0, 5/2, 10, 3⟩).interval = 25 := by
  have h := success_updates_repetitions_and_interval 0 3 ⟨"q", 0, 5/2, 10, 3⟩ (by norm_num)
  exact ⟨h.1, (h.2.2.2.2 (by norm_num)).trans (by norm_num [jsRound, min_def])⟩

/-- C4: on success (score ≥ 3) the new ease factor is
max(1.3, easeFactor + (0.1 − (5−score) × (0.08 + (5−score) × 0.02)));
Scenario A: score 5 on the default schedule gives repetitions 1,
interval 1 and ease factor 2.6. -/
theorem success_ease_formula (now : ℤ) (score : ℚ) (s : CardSchedule) (h : 3 ≤ score) :
    (calculateNextReview now score s).easeFactor =
      max (13/10) (s.easeFactor + (1/10 - (5 - score) * (8/100 + (5 - score) * (2/100)))) ∧
    calculateNextReview 0 5 ⟨"q", 0, 5/2, 0, 0⟩ = ⟨"q", 1, 13/5, 1, 1⟩ := by
  constructor
  · rw [cnr_success_eq now score s h]
  · rw [cnr_success_eq 0 5 ⟨"q", 0, 5/2, 0, 0⟩ (by norm_num)]
    norm_num [max_def, min_def]

/-- Witness for C4 at score 5 on the default schedule. -/
theorem success_ease_formula_witness :
    (calculateNextReview 0 5 ⟨"q", 0, 5/2, 0, 0⟩).easeFactor =
      max (13/10) ((5/2 : ℚ) + (1/10 - (5 - 5) * (8/100 + (5 - 5) * (2/100)))) := by
  have h := success_ease_formula 0 5 ⟨"q", 0, 5/2, 0, 0⟩ (by norm_num)
  exact h.1

/-- C8 counterexample: the source performs no score validation.  On
the out-of-range score 6 `calculateNextReview` silently computes a
schedule by the same formula (ease factor 2.5 + 0.16 = 2.66), while
the validating function the spec describes rejects the call. -/
theorem scheduler_accepts_out_of_range_score :
    calculateNextReview 0 6 (createInitialSchedule 0 ("q")) =
      { questionId := "q", nextReviewDate := 1, easeFactor := 133/50,
        interval := 1, repetitions := 1 } ∧
    computeNextScheduleChecked 0 6 (createInitialSchedule 0 ("q")) =
      Except.error ("score must be an integer between 1 and 5") := by
  constructor
  · rw [cnr_success_eq 0 6 (createInitialSchedule 0 ("q")) (by norm_num)]
    norm_num [createInitialSchedule, max_def, min_def]
  · rfl

/-- C8 (amended): `calculateNextReview` does not reject or clamp an
out-of-range score: scores below 1 take the lapse branch exactly as
score 1 does, and scores above 5 take the success branch with the
unclamped score fed into the ease-factor formula.  Validation is left
to the caller. -/
theorem out_of_range_score_computed (now : ℤ) (score : ℚ) (s : CardSchedule) :
    (score < 1 → calculateNextReview now score s = calculateNextReview now 1 s) ∧
    (5 < score →
      (calculateNextReview now score s).repetitions = s.repetitions + 1 ∧
      (calculateNextReview now score s).easeFactor =
        max (13/10) (s.easeFactor + (1/10 - (5 - score) * (8/100 + (5 - score) * (2/100))))) := by
  constructor
  · intro h
    rw [cnr_lapse_eq now score s (by linarith), cnr_lapse_eq now 1 s (by norm_num)]
  · intro h
    rw [cnr_success_eq now score s (by linarith)]
    exact ⟨rfl, rfl⟩

/-- Witness for the amended C8 at scores 0 and 6. -/
theorem out_of_range_score_computed_witness :
    calculateNextReview 0 0 (createInitialSchedule 0 ("q")) =
      calculateNextReview 0 1 (createInitialSchedule 0 ("q")) ∧
    (calculateNextReview 0 6 (createInitialSchedule 0 ("q"))).repetitions = 1 := by
  refine ⟨(out_of_range_score_computed 0 0 _).1 (by norm_num), ?_⟩
  have h := (out_of_range_score_computed 0 6 (createInitialSchedule 0 ("q"))).2 (by norm_num)
  exact h.1

/-- C9 counterexample: the outputs of `calculateNextReview` and
`updateStreak` change with the internally sampled wall clock even when
every explicit source-level argument is identical, so the time-
sensitive behaviour is not parameterized by an explicit now input in
the source (the sample is `new Date()` inside the functions). -/
theorem wall_clock_sampled_inside :
    calculateNextReview 0 5 (createInitialSchedule 0 ("q")) ≠
      calculateNextReview 1 5 (createInitialSchedule 0 ("q")) ∧
    updateStreak ⟨0, 3, 5, some 10⟩ 11 ≠ updateStreak ⟨0, 3, 5, some 10⟩ 12 := by
  decide

/-- C9 (amended): given the internally sampled clock value as an
explicit parameter, both functions are fully deterministic: identical
score, schedule and sampled timestamp give identical schedules, and
identical stats and sampled session date give identical streak
states.  For `calculateNextReview` the clock influences only
`nextReviewDate`, which equals the sampled instant plus the computed
interval. -/
theorem deterministic_given_sampled_clock (n1 n2 : ℤ) (score : ℚ) (s : CardSchedule)
    (st : UserStats) (d1 d2 : ℤ) :
    (calculateNextReview n1 score s).easeFactor = (calculateNextReview n2 score s).easeFactor ∧
    (calculateNextReview n1 score s).interval = (calculateNextReview n2 score s).interval ∧
    (calculateNextReview n1 score s).repetitions = (calculateNextReview n2 score s).repetitions ∧
    (calculateNextReview n1 score s).nextReviewDate =
      n1 + (calculateNextReview n1 score s).interval ∧
    (n1 = n2 → calculateNextReview n1 score s = calculateNextReview n2 score s) ∧
    (d1 = d2 → updateStreak st d1 = updateStreak st d2) := by
  exact ⟨rfl, rfl, rfl, rfl, fun h => by rw [h], fun h => by rw [h]⟩

/-- Witness for the amended C9. -/
theorem deterministic_given_sampled_clock_witness :
    calculateNextReview 0 5 (createInitialSchedule 0 ("q")) =
      calculateNextReview 0 5 (createInitialSchedule 0 ("q")) ∧
    updateStreak ⟨0, 3, 5, some 10⟩ 11 = updateStreak ⟨0, 3, 5, some 10⟩ 11 := by
  have h := deterministic_given_sampled_clock 0 0 5 (createInitialSchedule 0 ("q"))
    ⟨0, 3, 5, some 10⟩ 11 11
  exact ⟨h.2.2.2.2.1 rfl, h.2.2.2.2.2 rfl⟩

/-! ### Streak accounting -/

/-- After `updateStreak`, the last practice date is the session date. -/
theorem updateStreak_lastPracticeDate (st : UserStats) (d : ℤ) :
    (updateStreak st d).lastPracticeDate = some d := by
  unfold updateStreak
  split_ifs with h h2
  · exact h
  · rfl
  · rfl

/-- C6: `updateStreak` is the calendar-date state machine: a session
on the same date as `lastPracticeDate` changes nothing (so a second
call on the same date is idempotent); a session exactly one day later
increments the streak; any other case (gap ≥ 2 days, first session, or
a clock moved backwards) resets it to 1; in the updating cases the
longest streak becomes the maximum of the new current streak and the
old longest, and the last practice date becomes the session date. -/
theorem updateStreak_state_machine (st : UserStats) (d : ℤ) :
    (st.lastPracticeDate = some d → updateStreak st d = st) ∧
    (st.lastPracticeDate = some (d - 1) →
      updateStreak st d =
        { st with
          currentStreak := st.currentStreak + 1
          longestStreak := max (st.currentStreak + 1) st.longestStreak
          lastPracticeDate := some d }) ∧
    (st.lastPracticeDate ≠ some d → st.lastPracticeDate ≠ some (d - 1) →
      updateStreak st d =
        { st with
          currentStreak := 1
          longestStreak := max 1 st.longestStreak
          lastPracticeDate := some d }) ∧
    updateStreak (updateStreak st d) d = updateStreak st d := by
  refine ⟨?_, ?_, ?_, ?_⟩
  · intro h
    unfold updateStreak
    rw [if_pos h]
  · intro h
    have hne : st.lastPracticeDate ≠ some d := by
      rw [h]
      intro hc
      have := Option.some.inj hc
      omega
    unfold updateStreak
    rw [if_neg hne, if_pos h]
  · intro h1 h2
    unfold updateStreak
    rw [if_neg h1, if_neg h2]
  · have hl : (updateStreak st d).lastPracticeDate = some d :=
      updateStreak_lastPracticeDate st d
    generalize hG : updateStreak st d = X
    rw [hG] at hl
    unfold updateStreak
    rw [if_pos hl]

/-- Witness for C6: Scenario D.  From {currentStreak 3, longestStreak
5, last practice day 10}: a session on day 11 gives {4, 5, day 11}, a
session on day 13 gives {1, 5, day 13}. -/
theorem updateStreak_state_machine_witness :
    updateStreak ⟨7, 3, 5, some 10⟩ 11 = ⟨7, 4, 5, some 11⟩ ∧
    updateStreak ⟨7, 3, 5, some 10⟩ 13 = ⟨7, 1, 5, some 13⟩ := by
  have h1 := (updateStreak_state_machine ⟨7, 3, 5, some 10⟩ 11).2.1 (by decide)
  have h2 := (updateStreak_state_machine ⟨7, 3, 5, some 10⟩ 13).2.2.1 (by decide) (by decide)
  exact ⟨h1.trans (by decide), h2.trans (by decide)⟩

/-- C10: a full progress reset zeroes totalReviews and currentStreak,
clears lastPracticeDate, reinitializes every card schedule to the
defaults (easeFactor 2.5, interval 0, repetitions 0, due at the reset
instant), and leaves longestStreak unchanged, which also preserves
longestStreak ≥ currentStreak. -/
theorem resetAllProgress_effects (schedules : List CardSchedule) (stats : UserStats) (now : ℤ) :
    (resetAllProgress schedules stats now).2.totalReviews = 0 ∧
    (resetAllProgress schedules stats now).2.currentStreak = 0 ∧
    (resetAllProgress schedules stats now).2.lastPracticeDate = none ∧
    (resetAllProgress schedules stats now).2.longestStreak = stats.longestStreak ∧
    (resetAllProgress schedules stats now).2.currentStreak ≤
      (resetAllProgress schedules stats now).2.longestStreak ∧
    (resetAllProgress schedules stats now).1 =
      schedules.map (fun s => createInitialSchedule now s.questionId) :=
  ⟨rfl, rfl, rfl, rfl, Nat.zero_le _, rfl⟩

/-! ### Due-card selector lemmas -/

/-- The sign returned by `localeCompare` is nonpositive exactly for
chronologically ordered timestamps. -/
theorem dateCompare_le_iff (x y : ℤ) : dateCompare x y ≤ 0 ↔ x ≤ y := by
  unfold dateCompare
  split_ifs with h1 h2 <;> constructor <;> intro h <;> omega

/-- A category that occurs nowhere in the enumerated prefix list is
untouched by the `Map`-building fold. -/
theorem priorityMap_foldl_not_mem (l : List String) (n : ℕ) (m : String → WithTop ℕ)
    (c : String) (hc : c ∉ l) :
    ((List.enumFrom n l).foldl
        (fun m p => fun x => if x = p.2 then WithTop.some p.1 else m x) m) c = m c := by
  induction l generalizing n m with
  | nil => rfl
  | cons a as ih =>
      simp only [List.enumFrom, List.foldl_cons]
      rw [ih (n + 1) _ (fun h => hc (List.mem_cons_of_mem a h))]
      exact if_neg (fun h => hc (by rw [h]; exact List.mem_cons_self a as))

/-- A category occurring in the enumerated list is mapped to some
finite index by the `Map`-building fold. -/
theorem priorityMap_foldl_mem (l : List String) (n : ℕ) (m : String → WithTop ℕ)
    (c : String) (hc : c ∈ l) :
    ∃ k : ℕ, ((List.enumFrom n l).foldl
        (fun m p => fun x => if x = p.2 then WithTop.some p.1 else m x) m) c =
      WithTop.some k := by
  induction l generalizing n m with
  | nil => cases hc
  | cons a as ih =>
      simp only [List.enumFrom, List.foldl_cons]
      by_cases h : c ∈ as
      · exact ih (n + 1) _ h
      · have hca : c = a := by
          rcases List.mem_cons.mp hc with h1 | h1
          · exact h1
          · exact absurd h1 h
        refine ⟨n, ?_⟩
        rw [priorityMap_foldl_not_mem as (n + 1) _ c h]
        exact if_pos hca

/-- `priorityMap` yields `Infinity` (`⊤`) exactly on the categories
absent from the preferred list. -/
theorem priorityMap_eq_top_iff (prefs : List String) (c : String) :
    priorityMap prefs c = ⊤ ↔ c ∉ prefs := by
  unfold priorityMap
  rw [show List.enum prefs = List.enumFrom 0 prefs from rfl]
  constructor
  · intro h hc
    obtain ⟨k, hk⟩ := priorityMap_foldl_mem prefs 0 (fun _ => (⊤ : WithTop ℕ)) c hc
    exact WithTop.coe_ne_top (hk.symm.trans h)
  · intro hc
    exact priorityMap_foldl_not_mem prefs 0 _ c hc

/-- The comparator's "sorts no later than" relation is the
lexicographic order on (priority index, nextReviewDate). -/
theorem dueLE_iff (prefs : List String) (a b : DueCard) :
    dueLE prefs a b ↔
      (priorityMap prefs a.category < priorityMap prefs b.category ∨
        (priorityMap prefs a.category = priorityMap prefs b.category ∧
          a.schedule.nextReviewDate ≤ b.schedule.nextReviewDate)) := by
  simp only [dueLE, jsCompare]
  by_cases ha : a.category ∈ prefs <;> by_cases hb : b.category ∈ prefs
  · -- both preferred
    rw [if_neg (by simp [ha, hb]), if_neg (by simp [ha, hb])]
    by_cases hpp : priorityMap prefs a.category = priorityMap prefs b.category
    · rw [if_neg (by simp [hpp])]
      rw [dateCompare_le_iff]
      constructor
      · intro h
        exact Or.inr ⟨hpp, h⟩
      · rintro (h | ⟨_, h⟩)
        · exact absurd h (by simp [hpp])
        · exact h
    · rw [if_pos ⟨ha, hb, hpp⟩]
      by_cases hlt : priorityMap prefs a.category < priorityMap prefs b.category
      · rw [if_pos hlt]
        simp only [hlt, true_or, iff_true]
        norm_num
      · rw [if_neg hlt]
        constructor
        · intro h
          norm_num at h
        · rintro (h | ⟨h, _⟩)
          · exact absurd h hlt
          · exact absurd h hpp
  · -- a preferred, b not
    rw [if_pos ⟨ha, hb⟩]
    have hpb : priorityMap prefs b.category = ⊤ := (priorityMap_eq_top_iff prefs _).mpr hb
    have hpa : priorityMap prefs a.category ≠ ⊤ :=
      fun h => ((priorityMap_eq_top_iff prefs _).mp h) ha
    constructor
    · intro _
      refine Or.inl ?_
      rw [hpb]
      exact lt_top_iff_ne_top.mpr hpa
    · intro _
      norm_num
  · -- b preferred, a not
    rw [if_neg (by simp [ha]), if_pos ⟨ha, hb⟩]
    have hpa : priorityMap prefs a.category = ⊤ := (priorityMap_eq_top_iff prefs _).mpr ha
    have hpb : priorityMap prefs b.category ≠ ⊤ :=
      fun h => ((priorityMap_eq_top_iff prefs _).mp h) hb
    constructor
    · intro h
      norm_num at h
    · rintro (h | ⟨h, _⟩)
      · rw [hpa] at h
        exact absurd h (WithTop.not_top_lt _)
      · exact absurd (h.symm.trans hpa) hpb
  · -- neither preferred
    rw [if_neg (by simp [ha]), if_neg (by simp [hb]), if_neg (by simp [ha])]
    have hpa : priorityMap prefs a.category = ⊤ := (priorityMap_eq_top_iff prefs _).mpr ha
    have hpb : priorityMap prefs b.category = ⊤ := (priorityMap_eq_top_iff prefs _).mpr hb
    rw [dateCompare_le_iff]
    constructor
    · intro h
      exact Or.inr ⟨hpa.trans hpb.symm, h⟩
    · rintro (h | ⟨_, h⟩)
      · rw [hpa, hpb] at h
        exact absurd h (lt_irrefl _)
      · exact h

/-- The comparator relation is total. -/
theorem dueLE_total (prefs : List String) (a b : DueCard) :
    dueLE prefs a b ∨ dueLE prefs b a := by
  rw [dueLE_iff, dueLE_iff]
  rcases lt_trichotomy (priorityMap prefs a.category) (priorityMap prefs b.category) with
    h | h | h
  · exact Or.inl (Or.inl h)
  · rcases le_total a.schedule.nextReviewDate b.schedule.nextReviewDate with hd | hd
    · exact Or.inl (Or.inr ⟨h, hd⟩)
    · exact Or.inr (Or.inr ⟨h.symm, hd⟩)
  · exact Or.inr (Or.inl h)

/-- The comparator relation is transitive. -/
theorem dueLE_trans (prefs : List String) (a b c : DueCard)
    (hab : dueLE prefs a b) (hbc : dueLE prefs b c) : dueLE prefs a c := by
  rw [dueLE_iff] at hab hbc ⊢
  rcases hab with h1 | ⟨h1, d1⟩ <;> rcases hbc with h2 | ⟨h2, d2⟩
  · exact Or.inl (h1.trans h2)
  · exact Or.inl (lt_of_lt_of_eq h1 h2)
  · exact Or.inl (lt_of_eq_of_lt h1 h2)
  · exact Or.inr ⟨h1.trans h2, d1.trans d2⟩

/-- The selector's sorted due list is a permutation of the filtered
due rows. -/
theorem dueCardsSorted_perm (rows : List DueCard) (prefs : UserPreferences) (now : ℤ) :
    List.Perm (dueCardsSorted rows prefs now)
      (rows.filter (fun r => r.schedule.nextReviewDate ≤ now)) := by
  unfold dueCardsSorted
  exact (List.perm_insertionSort _ _).trans (List.perm_insertionSort _ _)

/-- The selector's due list is sorted by the comparator relation. -/
theorem dueCardsSorted_sorted (rows : List DueCard) (prefs : UserPreferences) (now : ℤ) :
    List.Sorted (dueLE prefs.preferredCategories) (dueCardsSorted rows prefs now) := by
  haveI : IsTotal DueCard (dueLE prefs.preferredCategories) := ⟨dueLE_total _⟩
  haveI : IsTrans DueCard (dueLE prefs.preferredCategories) := ⟨dueLE_trans _⟩
  exact List.sorted_insertionSort _ _

/-- C5: the selector returns exactly the schedules due at `now`
(never one with a later `nextReviewDate`; an empty due set yields the
empty list, not an error), ordered with every preferred-category card
before every non-preferred card, preferred cards by ascending index in
the preferred-categories list with ties broken by ascending
`nextReviewDate`, and non-preferred cards by ascending
`nextReviewDate` only. -/
theorem selectDueCards_spec (rows : List DueCard) (prefs : UserPreferences) (now : ℤ) :
    List.Perm (getDueCardsWithPriority rows prefs now)
      ((rows.filter (fun r => r.schedule.nextReviewDate ≤ now)).map DueCard.schedule) ∧
    (∀ s ∈ getDueCardsWithPriority rows prefs now, s.nextReviewDate ≤ now) ∧
    (rows.filter (fun r => r.schedule.nextReviewDate ≤ now) = [] →
      getDueCardsWithPriority rows prefs now = []) ∧
    List.Pairwise (fun a b =>
      (b.category ∈ prefs.preferredCategories → a.category ∈ prefs.preferredCategories) ∧
      (a.category ∈ prefs.preferredCategories → b.category ∈ prefs.preferredCategories →
        priorityMap prefs.preferredCategories a.category <
            priorityMap prefs.preferredCategories b.category ∨
          (priorityMap prefs.preferredCategories a.category =
              priorityMap prefs.preferredCategories b.category ∧
            a.schedule.nextReviewDate ≤ b.schedule.nextReviewDate)) ∧
      (a.category ∉ prefs.preferredCategories → b.category ∉ prefs.preferredCategories →
        a.schedule.nextReviewDate ≤ b.schedule.nextReviewDate))
      (dueCardsSorted rows prefs now) := by
  have hperm := dueCardsSorted_perm rows prefs now
  have hsorted := dueCardsSorted_sorted rows prefs now
  refine ⟨hperm.map DueCard.schedule, ?_, ?_, ?_⟩
  · intro s hs
    obtain ⟨r, hr, rfl⟩ := List.mem_map.mp hs
    have hr' := hperm.mem_iff.mp hr
    exact of_decide_eq_true (List.mem_filter.mp hr').2
  · intro hemp
    have hnil : dueCardsSorted rows prefs now = [] := by
      rw [hemp] at hperm
      exact hperm.eq_nil
    unfold getDueCardsWithPriority
    rw [hnil]
    rfl
  · refine hsorted.imp ?_
    intro a b hab
    rw [dueLE_iff] at hab
    refine ⟨?_, ?_, ?_⟩
    · intro hbmem
      by_contra hamem
      have hpa := (priorityMap_eq_top_iff prefs.preferredCategories a.category).mpr hamem
      rcases hab with h | ⟨h, _⟩
      · rw [hpa] at h
        exact WithTop.not_top_lt _ h
      · exact (priorityMap_eq_top_iff prefs.preferredCategories b.category).mp
          (h.symm.trans hpa) hbmem
    · intro _ _
      exact hab
    · intro hna hnb
      have hpa := (priorityMap_eq_top_iff prefs.preferredCategories a.category).mpr hna
      have hpb := (priorityMap_eq_top_iff prefs.preferredCategories b.category).mpr hnb
      rcases hab with h | ⟨_, hd⟩
      · rw [hpa, hpb] at h
        exact absurd h (lt_irrefl _)
      · exact hd

/-- Witness for C5 at a set with no due card: the selector returns
the empty list. -/
theorem selectDueCards_spec_witness :
    getDueCardsWithPriority [⟨⟨"a", 5, 1, 0, 0⟩, "sql"⟩] ⟨["sql"], []⟩ 0 = [] :=
  (selectDueCards_spec [⟨⟨"a", 5, 1, 0, 0⟩, "sql"⟩] ⟨["sql"], []⟩ 0).2.2.1 rfl

/-- C7: a due card whose category is absent from the preference
lookup does not make the selector fail: the card is still returned,
and it is treated as "other" — it never sorts before a preferred
card, and among the non-preferred cards it is ordered by ascending
`nextReviewDate`. -/
theorem missing_category_fail_open (rows : List DueCard) (prefs : UserPreferences) (now : ℤ)
    (r : DueCard) (hr : r ∈ rows) (hdue : r.schedule.nextReviewDate ≤ now)
    (habs : r.category ∉ prefs.preferredCategories) :
    r.schedule ∈ getDueCardsWithPriority rows prefs now ∧
    List.Pairwise (fun a b =>
      (a.category ∉ prefs.preferredCategories → b.category ∈ prefs.preferredCategories →
        False) ∧
      (a.category ∉ prefs.preferredCategories → b.category ∉ prefs.preferredCategories →
        a.schedule.nextReviewDate ≤ b.schedule.nextReviewDate))
      (dueCardsSorted rows prefs now) := by
  constructor
  · have hperm := dueCardsSorted_perm rows prefs now
    have hrf : r ∈ rows.filter (fun r => r.schedule.nextReviewDate ≤ now) :=
      List.mem_filter.mpr ⟨hr, by simpa using hdue⟩
    exact List.mem_map_of_mem DueCard.schedule (hperm.mem_iff.mpr hrf)
  · refine (dueCardsSorted_sorted rows prefs now).imp ?_
    intro a b hab
    rw [dueLE_iff] at hab
    refine ⟨?_, ?_⟩
    · intro hna hbmem
      have hpa := (priorityMap_eq_top_iff prefs.preferredCategories a.category).mpr hna
      rcases hab with h | ⟨h, _⟩
      · rw [hpa] at h
        exact WithTop.not_top_lt _ h
      · exact (priorityMap_eq_top_iff prefs.preferredCategories b.category).mp
          (h.symm.trans hpa) hbmem
    · intro hna hnb
      have hpa := (priorityMap_eq_top_iff prefs.preferredCategories a.category).mpr hna
      have hpb := (priorityMap_eq_top_iff prefs.preferredCategories b.category).mpr hnb
      rcases hab with h | ⟨_, hd⟩
      · rw [hpa, hpb] at h
        exact absurd h (lt_irrefl _)
      · exact hd

/-- Witness for C7: a due card in an unknown category "weird" is
still returned by the selector. -/
theorem missing_category_fail_open_witness :
    (⟨⟨"a", 7, 1, 0, 0⟩, "weird"⟩ : DueCard).schedule ∈
      getDueCardsWithPriority
        [⟨⟨"a", 7, 1, 0, 0⟩, "weird"⟩, ⟨⟨"b", 3, 1, 0, 0⟩, "sql"⟩] ⟨["sql"], []⟩ 10 :=
  (missing_category_fail_open
      [⟨⟨"a", 7, 1, 0, 0⟩, "weird"⟩, ⟨⟨"b", 3, 1, 0, 0⟩, "sql"⟩] ⟨["sql"], []⟩ 10
      ⟨⟨"a", 7, 1, 0, 0⟩, "weird"⟩
      (List.mem_cons_self _ _) (by norm_num) (by simp)).1
